import Mathlib

/-!
Shallow embedding of the per-correlation-ID state-transition audit engine of
`consistency_audit_cli.py` (repository log-consistency-audit), together with
proofs of the behavioural claims about it.

Modelling conventions:
* Python `datetime` values are modelled by `PyDateTime`: an abstract instant
  (`val : Nat`) plus the timezone-awareness flag.  In Python 3, `==` between a
  naive and an aware datetime returns `False`, while `<` between them raises
  `TypeError`; comparisons between two datetimes of the same awareness are by
  instant.  `datetime.min` is the naive minimal instant.
* Fallible Python computations (an ordering comparison that may raise
  `TypeError`) are modelled with `Except Unit`.
* `sorted(xs, key=k)` is modelled by a stable insertion sort that uses the
  same strict `<` on keys that CPython uses.  For any list whose keys are
  pairwise comparable the result agrees with any stable sort; a list whose
  keys mix awareness always has an adjacent incomparable pair, which CPython
  compares during run detection, so both the model and CPython raise exactly
  on mixed-awareness inputs.
* Python dicts preserve insertion order; `events_by_id` (a
  `defaultdict(list)`) is modelled by an ordered association list
  `EventsById`.  Subscripting a `defaultdict` inserts an empty entry for a
  missing key; that effect is modelled explicitly by `dGet`.
* File I/O, JSON decoding, regex matching and timestamp-format parsing are
  adapter concerns (spec sections 1 and 4.1 treat them as pluggable
  collaborators); they are parameters of the ingestion model, which keeps the
  cap logic of `read_json_logs` / `read_text_logs` exact.
-/

/-- A Python `datetime`: an instant plus its timezone-awareness flag. -/
structure PyDateTime where
  aware : Bool
  val : Nat
deriving DecidableEq, Repr

/-- `datetime.min`: the naive earliest representable instant. -/
def dtMin : PyDateTime := { aware := false, val := 0 }

/-- Python `==` on datetimes: naive vs aware compares unequal (no error);
equal awareness compares the instants. -/
def pyDtEq (a b : PyDateTime) : Bool :=
  a.aware == b.aware && a.val == b.val

/-- Python `<` on datetimes: raises `TypeError` between naive and aware
(modelled as `.error ()`), otherwise compares the instants. -/
def pyDtLt (a b : PyDateTime) : Except Unit Bool :=
  if a.aware = b.aware then .ok (decide (a.val < b.val)) else .error ()

/-- `LogEvent` dataclass of the source (field `raw_line`, `source_file`,
`line_no`, `timestamp`, `id_value`, `state`). -/
structure LogEvent where
  raw_line : String
  source_file : String
  line_no : Nat
  timestamp : Option PyDateTime
  id_value : String
  state : String
deriving DecidableEq, Repr

/-- Sort key of `audit_id_sequence`:
`lambda e: (e.timestamp or datetime.min, e.line_no)`.
Every datetime is truthy in Python, so `or` only replaces `None`. -/
def eventSortKey (e : LogEvent) : PyDateTime × Nat :=
  (e.timestamp.getD dtMin, e.line_no)

/-- Python `<` on the key tuples: the first components are compared with `==`
first (which never raises); on equality the tie-break integers decide,
otherwise datetime `<` decides (and may raise). -/
def keyLt (x y : PyDateTime × Nat) : Except Unit Bool :=
  if pyDtEq x.1 y.1 then .ok (decide (x.2 < y.2)) else pyDtLt x.1 y.1

/-- The comparison `sorted` uses on two events in `audit_id_sequence`. -/
def eventLt (a b : LogEvent) : Except Unit Bool :=
  keyLt (eventSortKey a) (eventSortKey b)

/-- Insert `a` into an already sorted list, placing it before the first
element it is strictly less than (this is the stable position).  Propagates a
raised comparison. -/
def insertE (lt : α → α → Except Unit Bool) (a : α) : List α → Except Unit (List α)
  | [] => .ok [a]
  | b :: t =>
    match lt a b with
    | .error e => .error e
    | .ok true => .ok (a :: b :: t)
    | .ok false =>
      match insertE lt a t with
      | .error e => .error e
      | .ok r => .ok (b :: r)

/-- Stable insertion sort, folding the input from the left. -/
def isortAux (lt : α → α → Except Unit Bool) (acc : List α) : List α → Except Unit (List α)
  | [] => .ok acc
  | a :: t =>
    match insertE lt a acc with
    | .error e => .error e
    | .ok acc2 => isortAux lt acc2 t

/-- Model of Python `sorted` with a fallible comparison. -/
def pySorted (lt : α → α → Except Unit Bool) (l : List α) : Except Unit (List α) :=
  isortAux lt [] l

/-- `Inconsistency` dataclass of the source. -/
structure Inconsistency where
  id_value : String
  type : String
  message : String
  events : List LogEvent
deriving DecidableEq, Repr

/-- Python `str()` of the optional `last_state` as interpolated by an
f-string: `None` prints as `"None"`. -/
def pyStrOpt (o : Option String) : String :=
  o.getD "None"

/-- The `unknown_state` inconsistency built at source lines 354-361. -/
def mkUnknown (id_value : String) (ev : LogEvent) : Inconsistency :=
  { id_value := id_value
    type := "unknown_state"
    message := "Unknown state \x27" ++ ev.state ++ "\x27 for id=" ++ id_value
    events := [ev] }

/-- The `duplicate_state` inconsistency built at source lines 370-377. -/
def mkDuplicate (id_value : String) (ev : LogEvent) : Inconsistency :=
  { id_value := id_value
    type := "duplicate_state"
    message := "Duplicate state \x27" ++ ev.state ++ "\x27 for id=" ++ id_value
    events := [ev] }

/-- The `regression` inconsistency built at source lines 380-390. -/
def mkRegression (id_value : String) (last_state : Option String) (ev : LogEvent) :
    Inconsistency :=
  { id_value := id_value
    type := "regression"
    message := "State regression for id=" ++ id_value ++ ": \x27" ++
      pyStrOpt last_state ++ "\x27 -> \x27" ++ ev.state ++ "\x27"
    events := [ev] }

/-- The `skipped_state` inconsistency built at source lines 393-404;
`missing` is `allowed_states[last_order_idx + 1 : curr_idx]`. -/
def mkSkipped (id_value : String) (missing : List String) (ev : LogEvent) :
    Inconsistency :=
  { id_value := id_value
    type := "skipped_state"
    message := "Skipped states for id=" ++ id_value ++ ": " ++
      String.intercalate " > " missing ++ " (jumped to \x27" ++ ev.state ++ "\x27)"
    events := [ev] }

/-- The walk of `audit_id_sequence` over the sorted events (source lines
347-409), carrying `last_order_idx` and `last_state`.  The Python duplicate
test `last_state == state` is `last_state = some ev.state` (for `None` the
test is `False`); `allowed_states[last + 1 : curr]` is drop-then-take. -/
def auditWalk (id_value : String) (order_map : String → Option Nat)
    (allowed_states : List String) (ignore_duplicates : Bool)
    (last_order_idx : Option Nat) (last_state : Option String) :
    List LogEvent → List Inconsistency
  | [] => []
  | ev :: rest =>
    match order_map ev.state with
    | none =>
      mkUnknown id_value ev ::
        auditWalk id_value order_map allowed_states ignore_duplicates
          last_order_idx last_state rest
    | some curr =>
      if last_state = some ev.state then
        (if ignore_duplicates then [] else [mkDuplicate id_value ev]) ++
          auditWalk id_value order_map allowed_states ignore_duplicates
            (some curr) (some ev.state) rest
      else
        ((match last_order_idx with
          | none => []
          | some last =>
            (if curr < last then [mkRegression id_value last_state ev] else []) ++
              (if last + 1 < curr then
                [mkSkipped id_value
                  ((allowed_states.drop (last + 1)).take (curr - (last + 1))) ev]
              else [])) ++
          auditWalk id_value order_map allowed_states ignore_duplicates
            (some curr) (some ev.state) rest)

/-- `audit_id_sequence` (source lines 332-409): sort the events of one ID by
`(timestamp or datetime.min, line_no)` and walk them.  A `TypeError` raised
by the sort propagates as `.error`. -/
def audit_id_sequence (id_value : String) (events : List LogEvent)
    (order_map : String → Option Nat) (allowed_states : List String)
    (ignore_duplicates : Bool) : Except Unit (List Inconsistency) :=
  match pySorted eventLt events with
  | .error e => .error e
  | .ok es => .ok (auditWalk id_value order_map allowed_states ignore_duplicates
      none none es)

/-- The correlation group `events_by_id`: an insertion-ordered dict from
correlation ID to the list of its events. -/
abbrev EventsById : Type := List (String × List LogEvent)

/-- Dict lookup: the value stored for key `v`, if any. -/
def findEvents : EventsById → String → Option (List LogEvent)
  | [], _ => none
  | (k, l) :: t, v => if k = v then some l else findEvents t v

/-- `defaultdict(list)` subscripting `events_by_id[v]`: returns the stored
list, inserting an empty entry first when the key is missing. -/
def dGet (g : EventsById) (v : String) : List LogEvent × EventsById :=
  match findEvents g v with
  | some l => (l, g)
  | none => ([], g ++ [(v, [])])

/-- `events_by_id[v].append(ev)`: append to the stored list, creating the
entry when missing (defaultdict). -/
def dAppend : EventsById → String → LogEvent → EventsById
  | [], v, ev => [(v, [ev])]
  | (k, l) :: t, v, ev =>
    if k = v then (k, l ++ [ev]) :: t else (k, l) :: dAppend t v ev

/-- `audit_all_ids` (source lines 412-428): audit each ID of the group in
dict order and concatenate the findings.  An exception raised while auditing
one ID aborts the loop. -/
def audit_all_ids (events_by_id : EventsById) (order_map : String → Option Nat)
    (allowed_states : List String) (ignore_duplicates : Bool) :
    Except Unit (List Inconsistency) :=
  match events_by_id with
  | [] => .ok []
  | (v, evs) :: t =>
    match audit_id_sequence v evs order_map allowed_states ignore_duplicates with
    | .error e => .error e
    | .ok i =>
      match audit_all_ids t order_map allowed_states ignore_duplicates with
      | .error e => .error e
      | .ok r => .ok (i ++ r)

/-- Effect-explicit form of `audit_id_sequence`: its result, paired with the
state of the callers event list after the call.  `sorted(events, key=...)`
allocates a fresh list and nothing in the function mutates or rebinds
`events`, so the list handed back is the one passed in. -/
def audit_id_sequence_run (id_value : String) (events : List LogEvent)
    (order_map : String → Option Nat) (allowed_states : List String)
    (ignore_duplicates : Bool) :
    Except Unit (List Inconsistency) × List LogEvent :=
  match pySorted eventLt events with
  | .error e => (.error e, events)
  | .ok es =>
    (.ok (auditWalk id_value order_map allowed_states ignore_duplicates
      none none es), events)

/-- Effect-explicit form of `audit_all_ids`: its result, paired with the
state of the group after the call (each entry holds the event list its
per-ID audit left behind). -/
def audit_all_ids_run (events_by_id : EventsById) (order_map : String → Option Nat)
    (allowed_states : List String) (ignore_duplicates : Bool) :
    Except Unit (List Inconsistency) × EventsById :=
  match events_by_id with
  | [] => (.ok [], [])
  | (v, evs) :: t =>
    let p := audit_id_sequence_run v evs order_map allowed_states ignore_duplicates
    let q := audit_all_ids_run t order_map allowed_states ignore_duplicates
    ((match p.1 with
      | .error e => .error e
      | .ok i =>
        match q.1 with
        | .error e => .error e
        | .ok r => .ok (i ++ r)),
     (v, p.2) :: q.2)

/-- The dict comprehension `{state: idx for idx, state in enumerate(states)}`
as a lookup function; a later occurrence of a state overrides an earlier one,
so the tail is consulted first. -/
def assignRanks : List String → Nat → String → Option Nat
  | [], _, _ => none
  | s :: t, i, st =>
    match assignRanks t (i + 1) st with
    | some r => some r
    | none => if st = s then some i else none

/-- Python `str.split(sep)` for a one-character separator, over the char
list: `"".split(c)` is `[""]`, adjacent separators yield empty pieces. -/
def splitOnChar (c : Char) : List Char → List String
  | [] => [""]
  | x :: t =>
    match splitOnChar c t with
    | [] => []
    | h :: r => if x = c then "" :: h :: r else (String.singleton x ++ h) :: r

/-- Python `str.strip()`: drop leading and trailing whitespace. -/
def pyStrip (s : String) : String :=
  String.mk (((s.toList.dropWhile Char.isWhitespace).reverse.dropWhile
    Char.isWhitespace).reverse)

/-- `build_state_order` (source lines 323-329): split on `>`, strip each
piece, keep the non-empty ones, and rank them by position (the returned
function is the dict `order_map`). -/
def build_state_order (allowed_order : String) : (String → Option Nat) × List String :=
  let states := ((splitOnChar '>' allowed_order.toList).map pyStrip).filter
    (fun s => s ≠ "")
  (assignRanks states 0, states)

example : (build_state_order "NEW>RUNNING>DONE").2 = ["NEW", "RUNNING", "DONE"] := by
  decide

example : (build_state_order "").2 = [] := by decide

example : (build_state_order " NEW > RUNNING >>").2 = ["NEW", "RUNNING"] := by decide

example : (build_state_order "NEW>RUNNING>DONE").1 "RUNNING" = some 1 := by decide

/-- One decoded JSON-line object, restricted to the three configured fields
(`obj.get(id_field)`, `obj.get(state_field)`, `obj.get(ts_field)`), each
already converted with `str()` when present. -/
structure JsonObj where
  idv : Option String
  st : Option String
  ts : Option String
deriving DecidableEq, Repr

/-- A raw input line for the JSON reader: the stripped line text paired with
its decode result (`none` models a `json.JSONDecodeError`, which the source
skips silently). -/
abbrev JsonLine : Type := String × Option JsonObj

/-- The per-line part of `read_json_logs` before the cap checks (source lines
205-226 and 235-246): lines that fail to decode or miss the id or state field
are dropped; the survivors become candidate `LogEvent`s, numbered from 1.
`pt` is the pluggable timestamp strategy, modelling
`lambda o: parse_timestamp(str(o), ts_mode)` (note `str(None)` parses to no
timestamp).  Decoding is stateless, so hoisting it before the cap checks
preserves the loop behaviour. -/
def jsonDecode (pt : Option String → Option PyDateTime) (src : String)
    (lines : List JsonLine) : List LogEvent :=
  lines.enum.filterMap (fun p =>
    match p.2.2 with
    | none => none
    | some o =>
      match o.idv, o.st with
      | some v, some s =>
        some { raw_line := p.2.1, source_file := src, line_no := p.1 + 1,
               timestamp := pt o.ts, id_value := v, state := s }
      | _, _ => none)

/-- The per-line part of `read_text_logs` before the cap checks (source lines
278-294 and 302-318): `exId`/`exSt`/`exTs` model the compiled regex searches
together with their group extraction (`none` when the line does not match or
the group is missing), `pt` models `lambda s: parse_timestamp(str(s),
ts_mode)`.  Timestamp extraction is stateless, so hoisting it before the cap
checks preserves the loop behaviour. -/
def textDecode (exId exSt exTs : String → Option String)
    (pt : String → Option PyDateTime) (src : String) (lines : List String) :
    List LogEvent :=
  lines.enum.filterMap (fun p =>
    match exId p.2, exSt p.2 with
    | some v, some s =>
      some { raw_line := p.2, source_file := src, line_no := p.1 + 1,
             timestamp := (exTs p.2).bind pt, id_value := v, state := s }
    | _, _ => none)

/-- The `max_events_per_id` check and the append, shared verbatim by both
readers (source lines 232-246 and 299-318).  When the cap is configured, the
check subscripts the `defaultdict`, inserting an empty entry for a new ID
before possibly dropping the record. -/
def ingestRecordEvCap (max_events_per_id : Option Nat) (g : EventsById)
    (ev : LogEvent) : EventsById :=
  match max_events_per_id with
  | some c =>
    let p := dGet g ev.id_value
    if c ≤ p.1.length then p.2
    else dAppend p.2 ev.id_value ev
  | none => dAppend g ev.id_value ev

/-- The full per-record cap logic shared by both readers (source lines
228-246 and 296-318): first the `max_ids` check (`id_value not in
events_by_id and len(events_by_id) >= max_ids` drops the record), then the
`max_events_per_id` check and the append.  The write-only `stopped_ids` set
of `read_json_logs` is never read and is omitted. -/
def ingestRecord (max_ids max_events_per_id : Option Nat) (g : EventsById)
    (ev : LogEvent) : EventsById :=
  match max_ids with
  | some k =>
    if findEvents g ev.id_value = none ∧ k ≤ g.length then g
    else ingestRecordEvCap max_events_per_id g ev
  | none => ingestRecordEvCap max_events_per_id g ev

/-- The reader loop over the decoded candidate events, in encounter order. -/
def ingestCore (max_ids max_events_per_id : Option Nat) (g : EventsById) :
    List LogEvent → EventsById
  | [] => g
  | ev :: rest =>
    ingestCore max_ids max_events_per_id
      (ingestRecord max_ids max_events_per_id g ev) rest

/-- `read_json_logs` (source lines 191-248) for one source file, with the
line decoding delegated to the adapter model `jsonDecode`. -/
def read_json_logs (pt : Option String → Option PyDateTime) (src : String)
    (max_ids max_events_per_id : Option Nat) (lines : List JsonLine) :
    EventsById :=
  ingestCore max_ids max_events_per_id [] (jsonDecode pt src lines)

/-- `read_text_logs` (source lines 257-320) for one source file, with the
regex extraction delegated to the adapter model `textDecode`. -/
def read_text_logs (exId exSt exTs : String → Option String)
    (pt : String → Option PyDateTime) (src : String)
    (max_ids max_events_per_id : Option Nat) (lines : List String) :
    EventsById :=
  ingestCore max_ids max_events_per_id [] (textDecode exId exSt exTs pt src lines)

/-- Summary field `total_ids` of the renderers: `len(events_by_id)`. -/
def summaryTotalIds (g : EventsById) : Nat :=
  g.length

/-- Summary field `total_events` of the renderers:
`sum(len(v) for v in events_by_id.values())`. -/
def summaryTotalEvents (g : EventsById) : Nat :=
  (g.map (fun p => p.2.length)).foldr (· + ·) 0

/-- The candidate events of one correlation ID, in encounter order. -/
def keptFor (recs : List LogEvent) (v : String) : List LogEvent :=
  recs.filter (fun e => e.id_value == v)

/-- The exit-status logic of `main` (source lines 498-555).  `paths` is the
result of `expand_files`, `events_by_id` the result of the reader (file I/O
is an adapter concern).  `not order_map` holds exactly when no state was
parsed from `--allowed-order`, i.e. when the states list is empty.  An
uncaught `TypeError` from the audit makes the interpreter exit with code 1. -/
def mainExitCode (paths : List String) (allowed_order : String)
    (show_ids : Bool) (events_by_id : EventsById) (ignore_duplicates : Bool) :
    Nat :=
  if paths = [] then 1
  else
    let p := build_state_order allowed_order
    if p.2 = [] then 1
    else if show_ids then 0
    else
      match audit_all_ids events_by_id p.1 p.2 ignore_duplicates with
      | .error _ => 1
      | .ok incs => if incs = [] then 0 else 3

instance {ε α : Type} [DecidableEq ε] [DecidableEq α] : DecidableEq (Except ε α) :=
  fun a b =>
    match a, b with
    | .ok x, .ok y =>
      if h : x = y then .isTrue (by rw [h]) else .isFalse (fun q => h (Except.ok.inj q))
    | .error x, .error y =>
      if h : x = y then .isTrue (by rw [h]) else .isFalse (fun q => h (Except.error.inj q))
    | .ok _, .error _ => .isFalse (fun q => Except.noConfusion q)
    | .error _, .ok _ => .isFalse (fun q => Except.noConfusion q)

/-- One admissible step of a sorted event sequence, as a decidable test: both
states are ranked, they differ, and the rank advances without decreasing and
by at most one. -/
def rankStepOk (order_map : String → Option Nat) (a b : LogEvent) : Bool :=
  !(a.state == b.state) &&
    match order_map a.state, order_map b.state with
    | some ra, some rb => decide (ra ≤ rb) && decide (rb ≤ ra + 1)
    | _, _ => false

/-- The allowed-order definition `NEW>RUNNING>DONE` used by the concrete
scenarios of the spec. -/
def ord3 : (String → Option Nat) × List String :=
  build_state_order "NEW>RUNNING>DONE"

/-- A minimal event for id `abc` in the concrete scenarios. -/
def mkEv (line_no : Nat) (state : String) (timestamp : Option PyDateTime) :
    LogEvent :=
  { raw_line := "", source_file := "app.log", line_no := line_no,
    timestamp := timestamp, id_value := "abc", state := state }

example : pySorted eventLt [mkEv 1 "NEW" none, mkEv 2 "DONE" none] =
    .ok [mkEv 1 "NEW" none, mkEv 2 "DONE" none] := by decide

example : audit_id_sequence "abc" [mkEv 1 "NEW" none, mkEv 2 "DONE" none]
    ord3.1 ord3.2 false = .ok [mkSkipped "abc" ["RUNNING"] (mkEv 2 "DONE" none)] := by
  decide

example : audit_id_sequence "abc"
    [mkEv 1 "NEW" (some { aware := true, val := 100 }), mkEv 2 "DONE" none]
    ord3.1 ord3.2 false = .error () := by decide

example : audit_id_sequence "abc" [mkEv 1 "NEW" none, mkEv 2 "NEW" none]
    ord3.1 ord3.2 false = .ok [mkDuplicate "abc" (mkEv 2 "NEW" none)] := by decide

example : audit_id_sequence "abc" [mkEv 1 "NEW" none, mkEv 2 "NEW" none]
    ord3.1 ord3.2 true = .ok [] := by decide

example : audit_id_sequence "abc"
    [mkEv 1 "NEW" none, mkEv 2 "PENDING" none, mkEv 3 "RUNNING" none]
    ord3.1 ord3.2 false = .ok [mkUnknown "abc" (mkEv 2 "PENDING" none)] := by decide

example : audit_id_sequence "abc"
    [mkEv 1 "RUNNING" none, mkEv 2 "NEW" none] ord3.1 ord3.2 false =
    .ok [mkRegression "abc" (some "RUNNING") (mkEv 2 "NEW" none)] := by decide

example : ingestCore none (some 2) []
    [mkEv 1 "NEW" none, mkEv 2 "RUNNING" none, mkEv 3 "DONE" none] =
    [("abc", [mkEv 1 "NEW" none, mkEv 2 "RUNNING" none])] := by decide

example : ingestCore (some 1) (some 0) []
    [mkEv 1 "NEW" none,
     { raw_line := "", source_file := "app.log", line_no := 2,
       timestamp := none, id_value := "xyz", state := "NEW" }] =
    [("abc", [])] := by decide

example :
    read_json_logs (fun _ => none) "app.log" none none
      [("l1", some { idv := some "abc", st := some "NEW", ts := none }),
       ("bad", none),
       ("l3", some { idv := some "abc", st := some "DONE", ts := none })] =
    [("abc", [{ raw_line := "l1", source_file := "app.log", line_no := 1,
                timestamp := none, id_value := "abc", state := "NEW" },
              { raw_line := "l3", source_file := "app.log", line_no := 3,
                timestamp := none, id_value := "abc", state := "DONE" }])] := by decide

/-- C2: evaluation of `audit_id_sequence` at the failing input: one event of
id `abc` carries a timezone-aware parsed timestamp, the other none.  The sort
key substitutes naive `datetime.min` for the absent timestamp, Python raises
`TypeError` when ordering an aware against a naive datetime, and the audit
crashes instead of ordering the events. -/
theorem c2_sort_crashes_on_aware_and_absent_timestamp :
    audit_id_sequence "abc"
      [mkEv 1 "NEW" (some { aware := true, val := 100 }), mkEv 2 "DONE" none]
      ord3.1 ord3.2 false = .error () ∧
    (mkEv 1 "NEW" (some { aware := true, val := 100 })).timestamp.isSome = true ∧
    (mkEv 2 "DONE" none).timestamp = none := by
  decide

/-- C4: an event whose state has no rank emits exactly one `unknown_state`
inconsistency and leaves `last_order_idx`/`last_state` untouched, so the
remaining events are audited against the last known state; and spec
Scenario 5 (`NEW, PENDING, RUNNING` against `NEW>RUNNING>DONE`) yields
exactly one `unknown_state`, with `RUNNING` compared against `NEW`. -/
theorem c4_unknown_state_is_invisible (id_value : String)
    (order_map : String → Option Nat) (allowed_states : List String)
    (ignore_duplicates : Bool) (last_order_idx : Option Nat)
    (last_state : Option String) (ev : LogEvent) (rest : List LogEvent)
    (h : order_map ev.state = none) :
    auditWalk id_value order_map allowed_states ignore_duplicates
        last_order_idx last_state (ev :: rest) =
      mkUnknown id_value ev ::
        auditWalk id_value order_map allowed_states ignore_duplicates
          last_order_idx last_state rest ∧
    audit_id_sequence "abc"
        [mkEv 1 "NEW" none, mkEv 2 "PENDING" none, mkEv 3 "RUNNING" none]
        ord3.1 ord3.2 false = .ok [mkUnknown "abc" (mkEv 2 "PENDING" none)] := by
  constructor
  · simp [auditWalk, h]
  · decide

/-- Witness for C4 at a concrete input. -/
theorem c4_witness :
    auditWalk "abc" ord3.1 ord3.2 false (some 0) (some "NEW")
        [mkEv 2 "PENDING" none] =
      mkUnknown "abc" (mkEv 2 "PENDING" none) ::
        auditWalk "abc" ord3.1 ord3.2 false (some 0) (some "NEW") [] ∧
    audit_id_sequence "abc"
        [mkEv 1 "NEW" none, mkEv 2 "PENDING" none, mkEv 3 "RUNNING" none]
        ord3.1 ord3.2 false = .ok [mkUnknown "abc" (mkEv 2 "PENDING" none)] :=
  c4_unknown_state_is_invisible "abc" ord3.1 ord3.2 false (some 0) (some "NEW")
    (mkEv 2 "PENDING" none) [] (by decide)

/-- C6: an event whose known state equals `last_state` emits one
`duplicate_state` exactly when the ignore-duplicates flag is unset, and
`last_order_idx`/`last_state` are updated to the current event either way;
and spec Scenario 4 (`NEW, NEW`) yields one `duplicate_state` with the flag
unset and none with it set. -/
theorem c6_duplicate_state_flag (id_value : String)
    (order_map : String → Option Nat) (allowed_states : List String)
    (ignore_duplicates : Bool) (last_order_idx : Option Nat) (ev : LogEvent)
    (rest : List LogEvent) (curr : Nat) (h : order_map ev.state = some curr) :
    auditWalk id_value order_map allowed_states ignore_duplicates
        last_order_idx (some ev.state) (ev :: rest) =
      (if ignore_duplicates then [] else [mkDuplicate id_value ev]) ++
        auditWalk id_value order_map allowed_states ignore_duplicates
          (some curr) (some ev.state) rest ∧
    audit_id_sequence "abc" [mkEv 1 "NEW" none, mkEv 2 "NEW" none]
        ord3.1 ord3.2 false = .ok [mkDuplicate "abc" (mkEv 2 "NEW" none)] ∧
    audit_id_sequence "abc" [mkEv 1 "NEW" none, mkEv 2 "NEW" none]
        ord3.1 ord3.2 true = .ok [] := by
  refine ⟨?_, by decide, by decide⟩
  simp [auditWalk, h]

/-- Witness for C6 at a concrete input. -/
theorem c6_witness :
    auditWalk "abc" ord3.1 ord3.2 false (some 0) (some "NEW")
        [mkEv 2 "NEW" none] =
      (if false then [] else [mkDuplicate "abc" (mkEv 2 "NEW" none)]) ++
        auditWalk "abc" ord3.1 ord3.2 false (some 0) (some "NEW") [] ∧
    audit_id_sequence "abc" [mkEv 1 "NEW" none, mkEv 2 "NEW" none]
        ord3.1 ord3.2 false = .ok [mkDuplicate "abc" (mkEv 2 "NEW" none)] ∧
    audit_id_sequence "abc" [mkEv 1 "NEW" none, mkEv 2 "NEW" none]
        ord3.1 ord3.2 true = .ok [] :=
  c6_duplicate_state_flag "abc" ord3.1 ord3.2 false (some 0)
    (mkEv 2 "NEW" none) [] 0 (by decide)

/-- `audit_id_sequence_run` returns the callers event list unchanged and
computes the same findings as `audit_id_sequence`. -/
theorem audit_id_sequence_run_eq (id_value : String) (events : List LogEvent)
    (order_map : String → Option Nat) (allowed_states : List String)
    (ignore_duplicates : Bool) :
    audit_id_sequence_run id_value events order_map allowed_states
        ignore_duplicates =
      (audit_id_sequence id_value events order_map allowed_states
        ignore_duplicates, events) := by
  unfold audit_id_sequence_run audit_id_sequence
  cases h : pySorted eventLt events <;> simp

/-- C9: auditing is read-only on the correlation group: after
`audit_all_ids` the group holds the same IDs mapped to the same event lists
in the same order, and the effect-explicit run returns exactly the findings
of the pure function. -/
theorem c9_audit_all_ids_frame (events_by_id : EventsById)
    (order_map : String → Option Nat) (allowed_states : List String)
    (ignore_duplicates : Bool) :
    (audit_all_ids_run events_by_id order_map allowed_states
        ignore_duplicates).2 = events_by_id ∧
    (audit_all_ids_run events_by_id order_map allowed_states
        ignore_duplicates).1 =
      audit_all_ids events_by_id order_map allowed_states ignore_duplicates := by
  induction events_by_id with
  | nil => exact ⟨rfl, rfl⟩
  | cons p t ih =>
    obtain ⟨v, evs⟩ := p
    unfold audit_all_ids_run audit_all_ids
    rw [audit_id_sequence_run_eq]
    exact ⟨by simp [ih.1], by simp [ih.2]⟩

/-- C3 counterexample: a configuration-error run (files exist, empty
allowed-order definition) and an ingestion-failure run (no files matched)
exit with the same status 1, so the four outcomes are not pairwise
distinguishable. -/
theorem c3_config_and_ingestion_share_exit_code :
    mainExitCode ["app.log"] "" false [] false = 1 ∧
    mainExitCode [] "NEW>RUNNING>DONE" false [] false = 1 := by
  decide

/-- C3 amended: the exit status distinguishes three outcomes: no files
matched exits 1, an empty allowed-order definition exits 1 (the same code:
configuration error and ingestion failure are indistinguishable), a clean
audit exits 0, and a run that finds inconsistencies exits 3. -/
theorem c3_exit_code_contract :
    (∀ (allowed_order : String) (g : EventsById) (show_ids ign : Bool),
      mainExitCode [] allowed_order show_ids g ign = 1) ∧
    (∀ (paths : List String) (allowed_order : String) (g : EventsById)
      (show_ids ign : Bool), (build_state_order allowed_order).2 = [] →
      mainExitCode paths allowed_order show_ids g ign = 1) ∧
    (∀ (paths : List String) (allowed_order : String) (g : EventsById)
      (ign : Bool), paths ≠ [] → (build_state_order allowed_order).2 ≠ [] →
      audit_all_ids g (build_state_order allowed_order).1
        (build_state_order allowed_order).2 ign = .ok [] →
      mainExitCode paths allowed_order false g ign = 0) ∧
    (∀ (paths : List String) (allowed_order : String) (g : EventsById)
      (ign : Bool) (incs : List Inconsistency), paths ≠ [] →
      (build_state_order allowed_order).2 ≠ [] →
      audit_all_ids g (build_state_order allowed_order).1
        (build_state_order allowed_order).2 ign = .ok incs → incs ≠ [] →
      mainExitCode paths allowed_order false g ign = 3) := by
  refine ⟨?_, ?_, ?_, ?_⟩
  · intro ao g si ign
    simp [mainExitCode]
  · intro paths ao g si ign h
    by_cases hp : paths = [] <;> simp [mainExitCode, hp, h]
  · intro paths ao g ign hp hs haud
    simp [mainExitCode, hp, hs, haud]
  · intro paths ao g ign incs hp hs haud hi
    simp [mainExitCode, hp, hs, haud, hi]

/-- Witness for C3 at concrete inputs: one run per outcome. -/
theorem c3_witness :
    mainExitCode [] "NEW>RUNNING>DONE" false [] false = 1 ∧
    mainExitCode ["app.log"] "" false [] false = 1 ∧
    mainExitCode ["app.log"] "NEW>RUNNING>DONE" false [] false = 0 ∧
    mainExitCode ["app.log"] "NEW>RUNNING>DONE" false
      [("abc", [mkEv 1 "NEW" none, mkEv 2 "NEW" none])] false = 3 :=
  ⟨c3_exit_code_contract.1 "NEW>RUNNING>DONE" [] false false,
   c3_exit_code_contract.2.1 ["app.log"] "" [] false false (by decide),
   c3_exit_code_contract.2.2.1 ["app.log"] "NEW>RUNNING>DONE" [] false
     (by decide) (by decide) (by decide),
   c3_exit_code_contract.2.2.2 ["app.log"] "NEW>RUNNING>DONE"
     [("abc", [mkEv 1 "NEW" none, mkEv 2 "NEW" none])] false
     [mkDuplicate "abc" (mkEv 2 "NEW" none)]
     (by decide) (by decide) (by decide) (by decide)⟩

/-- Unpacking `rankStepOk`: both states are ranked, they differ, and the
rank does not decrease and advances by at most one. -/
theorem rankStepOk_spec {order_map : String → Option Nat} {a b : LogEvent}
    (h : rankStepOk order_map a b = true) :
    a.state ≠ b.state ∧ ∃ ra rb, order_map a.state = some ra ∧
      order_map b.state = some rb ∧ ra ≤ rb ∧ rb ≤ ra + 1 := by
  unfold rankStepOk at h
  rw [Bool.and_eq_true] at h
  obtain ⟨h1, h2⟩ := h
  refine ⟨by simpa using h1, ?_⟩
  cases ha : order_map a.state with
  | none => rw [ha] at h2; simp at h2
  | some ra =>
    cases hb : order_map b.state with
    | none => rw [ha, hb] at h2; simp at h2
    | some rb =>
      rw [ha, hb, Bool.and_eq_true, decide_eq_true_iff, decide_eq_true_iff] at h2
      exact ⟨ra, rb, rfl, rfl, h2.1, h2.2⟩

/-- If every state of `es` is ranked and each consecutive pair satisfies
`rankStepOk`, the walk emits nothing, provided the carried state is
compatible with the first event. -/
theorem auditWalk_nil_of_chain (id_value : String)
    (order_map : String → Option Nat) (allowed_states : List String)
    (ign : Bool) :
    ∀ (es : List LogEvent) (lo : Option Nat) (ls : Option String),
      (∀ e ∈ es, (order_map e.state).isSome) →
      List.Chain' (fun a b => rankStepOk order_map a b = true) es →
      (∀ e t, es = e :: t → ∀ re, order_map e.state = some re →
        ls ≠ some e.state ∧ ∀ r, lo = some r → r ≤ re ∧ re ≤ r + 1) →
      auditWalk id_value order_map allowed_states ign lo ls es = [] := by
  intro es
  induction es with
  | nil => intro lo ls _ _ _; rfl
  | cons e t ih =>
    intro lo ls hknown hchain hstart
    have hs : (order_map e.state).isSome := hknown e (by simp)
    obtain ⟨re, he⟩ := Option.isSome_iff_exists.mp hs
    obtain ⟨hne, hlo⟩ := hstart e t rfl re he
    have htail : auditWalk id_value order_map allowed_states ign
        (some re) (some e.state) t = [] := by
      apply ih (some re) (some e.state)
      · intro x hx; exact hknown x (by simp [hx])
      · exact hchain.tail
      · intro e2 t2 ht2 re2 he2
        subst ht2
        have hrel : rankStepOk order_map e e2 = true :=
          (List.chain'_cons.mp hchain).1
        obtain ⟨hne2, ra, rb, hra, hrb, h1, h2⟩ := rankStepOk_spec hrel
        rw [he] at hra
        rw [he2] at hrb
        have hra2 : re = ra := by injection hra
        have hrb2 : re2 = rb := by injection hrb
        subst hra2
        subst hrb2
        refine ⟨by simpa using hne2, ?_⟩
        intro r hr
        injection hr with hr
        subst hr
        exact ⟨h1, h2⟩
    cases lo with
    | none =>
      simp only [auditWalk, he, if_neg hne]
      simpa using htail
    | some r =>
      obtain ⟨hr1, hr2⟩ := hlo r rfl
      simp only [auditWalk, he, if_neg hne]
      rw [if_neg (by omega), if_neg (by omega)]
      simpa using htail

/-- C1 counterexample: events `NEW, DONE` (sorted to themselves) have no
unknown state, no consecutive duplicate, and the monotonically non-decreasing
rank sequence `0, 2`, yet `audit_id_sequence` emits an inconsistency (the
`skipped_state` for the jump over `RUNNING`). -/
theorem c1_counterexample :
    pySorted eventLt [mkEv 1 "NEW" none, mkEv 2 "DONE" none] =
      .ok [mkEv 1 "NEW" none, mkEv 2 "DONE" none] ∧
    ord3.1 "NEW" = some 0 ∧ ord3.1 "DONE" = some 2 ∧ 0 ≤ 2 ∧
    ("NEW" : String) ≠ "DONE" ∧
    audit_id_sequence "abc" [mkEv 1 "NEW" none, mkEv 2 "DONE" none]
      ord3.1 ord3.2 false ≠ .ok [] := by
  decide

/-- C1 amended: if the sorted events all have ranked states, no consecutive
pair repeats a state, and the rank sequence is monotonically non-decreasing
and advances by at most one rank at each step, then `audit_id_sequence`
emits no inconsistency. -/
theorem c1_clean_when_ranks_step_by_at_most_one (id_value : String)
    (events es : List LogEvent) (order_map : String → Option Nat)
    (allowed_states : List String) (ignore_duplicates : Bool)
    (hsort : pySorted eventLt events = .ok es)
    (hknown : ∀ e ∈ es, (order_map e.state).isSome)
    (hchain : List.Chain' (fun a b => rankStepOk order_map a b = true) es) :
    audit_id_sequence id_value events order_map allowed_states
      ignore_duplicates = .ok [] := by
  unfold audit_id_sequence
  rw [hsort]
  have hw := auditWalk_nil_of_chain id_value order_map allowed_states
    ignore_duplicates es none none hknown hchain
    (fun e t _ re _ => ⟨by simp, by intro r hr; cases hr⟩)
  simp [hw]

/-- Witness for C1 at the concrete Scenario 1 input. -/
theorem c1_witness :
    audit_id_sequence "abc"
      [mkEv 1 "NEW" none, mkEv 2 "RUNNING" none, mkEv 3 "DONE" none]
      ord3.1 ord3.2 false = .ok [] :=
  c1_clean_when_ranks_step_by_at_most_one "abc"
    [mkEv 1 "NEW" none, mkEv 2 "RUNNING" none, mkEv 3 "DONE" none]
    [mkEv 1 "NEW" none, mkEv 2 "RUNNING" none, mkEv 3 "DONE" none]
    ord3.1 ord3.2 false (by decide) (by decide)
    (by constructor
        · decide
        · constructor
          · decide
          · exact List.chain'_singleton _)

/-- A state that does not occur in the list has no rank. -/
theorem assignRanks_eq_none_of_not_mem (l : List String) (i : Nat) (st : String)
    (h : st ∉ l) : assignRanks l i st = none := by
  induction l generalizing i with
  | nil => rfl
  | cons s t ih =>
    have h1 : st ∉ t := fun hm => h (List.mem_cons_of_mem _ hm)
    have h2 : st ≠ s := fun he => h (by rw [he]; exact List.mem_cons_self s t)
    simp [assignRanks, ih (i + 1) h1, h2]

/-- On a duplicate-free list, the rank of the `j`-th state is `i + j`. -/
theorem assignRanks_get (l : List String) (hnd : l.Nodup) :
    ∀ (i j : Nat) (h : j < l.length), assignRanks l i (l.get ⟨j, h⟩) = some (i + j) := by
  induction l with
  | nil => intro i j h; simp at h
  | cons s t ih =>
    intro i j h
    cases j with
    | zero =>
      have hs : s ∉ t := (List.nodup_cons.mp hnd).1
      simp [assignRanks, assignRanks_eq_none_of_not_mem t (i + 1) s hs]
    | succ j =>
      have hnd2 : t.Nodup := (List.nodup_cons.mp hnd).2
      have hlt : j < t.length := by simpa using h
      have hrec := ih hnd2 (i + 1) j hlt
      simp only [assignRanks, List.get_cons_succ, hrec]
      congr 1
      omega

/-- Any assigned rank points back into the list. -/
theorem assignRanks_some (l : List String) :
    ∀ (i : Nat) (st : String) (r : Nat), assignRanks l i st = some r →
      ∃ j, ∃ h : j < l.length, r = i + j ∧ l.get ⟨j, h⟩ = st := by
  induction l with
  | nil => intro i st r h; simp [assignRanks] at h
  | cons s t ih =>
    intro i st r h
    simp only [assignRanks] at h
    cases hrec : assignRanks t (i + 1) st with
    | some r2 =>
      rw [hrec] at h
      have hr : r2 = r := by injection h
      obtain ⟨j, hj, hr2, hget⟩ := ih (i + 1) st r2 hrec
      refine ⟨j + 1, by simpa using Nat.succ_lt_succ hj, by omega, by simpa using hget⟩
    | none =>
      rw [hrec] at h
      by_cases he : st = s
      · rw [if_pos he] at h
        have hi : i = r := by injection h
        exact ⟨0, by simp, by omega, by simp [he]⟩
      · rw [if_neg he] at h
        cases h

/-- Element `k` of the slice `l[a : a + b]` is element `a + k` of `l`. -/
theorem get_drop_take {α : Type} (l : List α) (a b k : Nat)
    (hk : k < ((l.drop a).take b).length) (hal : a + k < l.length) :
    ((l.drop a).take b).get ⟨k, hk⟩ = l.get ⟨a + k, hal⟩ := by
  simp [List.get_eq_getElem, List.getElem_take, List.getElem_drop]

/-- The length of the slice `l[a : c]` when `c` is within bounds. -/
theorem length_drop_take {α : Type} (l : List α) (a c : Nat)
    (h : c ≤ l.length) :
    ((l.drop a).take (c - a)).length = c - a := by
  rw [List.length_take, List.length_drop]
  exact Nat.min_eq_left (by omega)


/-- The `type` field of a `regression` finding. -/
theorem mkRegression_type (id_value : String) (ls : Option String)
    (ev : LogEvent) : (mkRegression id_value ls ev).type = "regression" := rfl

/-- The `type` field of a `skipped_state` finding. -/
theorem mkSkipped_type (id_value : String) (missing : List String)
    (ev : LogEvent) : (mkSkipped id_value missing ev).type = "skipped_state" := rfl

/-- C5: for an event whose known state differs from `last_state` while
`last_order_idx` is set, the walk emits a `regression` exactly when the rank
moves backward and a `skipped_state` exactly when it advances by more than
one; no event triggers both; and the skipped slice of the allowed-order list
names exactly the states of every rank strictly between the two, in rank
sequence. -/
theorem c5_regression_skip_dichotomy (allowed_order id_value : String)
    (order_map : String → Option Nat) (allowed_states : List String)
    (ign : Bool) (ev : LogEvent) (last : Nat) (lastSt : String) (curr : Nat)
    (hbs : build_state_order allowed_order = (order_map, allowed_states))
    (hnd : allowed_states.Nodup)
    (hcurr : order_map ev.state = some curr)
    (hne : ev.state ≠ lastSt) :
    (mkRegression id_value (some lastSt) ev ∈
        auditWalk id_value order_map allowed_states ign (some last) (some lastSt)
          [ev] ↔ curr < last) ∧
    (mkSkipped id_value
        ((allowed_states.drop (last + 1)).take (curr - (last + 1))) ev ∈
        auditWalk id_value order_map allowed_states ign (some last) (some lastSt)
          [ev] ↔ last + 1 < curr) ∧
    ¬((∃ i ∈ auditWalk id_value order_map allowed_states ign (some last)
          (some lastSt) [ev], i.type = "regression") ∧
      (∃ i ∈ auditWalk id_value order_map allowed_states ign (some last)
          (some lastSt) [ev], i.type = "skipped_state")) ∧
    (∀ st, st ∈ (allowed_states.drop (last + 1)).take (curr - (last + 1)) ↔
      ∃ r, order_map st = some r ∧ last < r ∧ r < curr) ∧
    ((allowed_states.drop (last + 1)).take (curr - (last + 1))).map order_map =
      (List.range' (last + 1) (curr - (last + 1))).map some := by
  have hmap : order_map = assignRanks allowed_states 0 := by
    have h1 : (build_state_order allowed_order).1 = order_map := by rw [hbs]
    have h2 : (build_state_order allowed_order).2 = allowed_states := by rw [hbs]
    rw [← h1, ← h2]
    rfl
  obtain ⟨j, hj, hcurrj, hgetj⟩ := assignRanks_some allowed_states 0 ev.state curr
    (by rw [← hmap]; exact hcurr)
  have hjc : curr = j := by omega
  subst hjc
  have hout : auditWalk id_value order_map allowed_states ign (some last)
      (some lastSt) [ev] =
      (if curr < last then [mkRegression id_value (some lastSt) ev] else []) ++
      (if last + 1 < curr then
        [mkSkipped id_value
          ((allowed_states.drop (last + 1)).take (curr - (last + 1))) ev]
      else []) := by
    have hne2 : ¬ ((some lastSt : Option String) = some ev.state) := by
      simp [Ne.symm hne]
    simp [auditWalk, hcurr, hne2]
  refine ⟨?_, ?_, ?_, ?_, ?_⟩
  · rw [hout]
    by_cases hc : curr < last
    · have hs : ¬ (last + 1 < curr) := by omega
      simp [hc, hs]
    · by_cases hs : last + 1 < curr
      · simp only [if_neg hc, if_pos hs, List.nil_append, List.mem_singleton]
        constructor
        · intro h
          have ht := congrArg Inconsistency.type h
          rw [mkRegression_type, mkSkipped_type] at ht
          exact absurd ht (by decide)
        · intro h
          exact absurd h hc
      · simp [hc, hs]
  · rw [hout]
    by_cases hs : last + 1 < curr
    · have hc : ¬ (curr < last) := by omega
      simp [hc, hs]
    · by_cases hc : curr < last
      · simp only [if_pos hc, if_neg hs, List.append_nil, List.mem_singleton]
        constructor
        · intro h
          have ht := congrArg Inconsistency.type h
          rw [mkRegression_type, mkSkipped_type] at ht
          exact absurd ht.symm (by decide)
        · intro h
          exact absurd h hs
      · simp [hc, hs]
  · rw [hout]
    rintro ⟨⟨i1, hi1, ht1⟩, ⟨i2, hi2, ht2⟩⟩
    by_cases hc : curr < last
    · have hs : ¬ (last + 1 < curr) := by omega
      rw [if_pos hc, if_neg hs] at hi2
      simp only [List.append_nil, List.mem_singleton] at hi2
      subst hi2
      rw [mkRegression_type] at ht2
      exact absurd ht2 (by decide)
    · by_cases hs : last + 1 < curr
      · rw [if_neg hc, if_pos hs] at hi1
        simp only [List.nil_append, List.mem_singleton] at hi1
        subst hi1
        rw [mkSkipped_type] at ht1
        exact absurd ht1 (by decide)
      · rw [if_neg hc, if_neg hs] at hi1
        simp at hi1
  · intro st
    constructor
    · intro hmem
      obtain ⟨⟨k, hk⟩, hkeq⟩ := List.mem_iff_get.mp hmem
      have hk2 : k < curr - (last + 1) ∧ k < allowed_states.length - (last + 1) := by
        have hx := hk
        rw [List.length_take, List.length_drop, Nat.lt_min] at hx
        exact hx
      have hidx : last + 1 + k < allowed_states.length := by omega
      rw [get_drop_take allowed_states (last + 1) (curr - (last + 1)) k hk hidx]
        at hkeq
      have hrank : order_map st = some (last + 1 + k) := by
        rw [← hkeq, hmap]
        have har := assignRanks_get allowed_states hnd 0 (last + 1 + k) hidx
        simpa using har
      exact ⟨last + 1 + k, hrank, by omega, by omega⟩
    · rintro ⟨r, hr, h1, h2⟩
      rw [hmap] at hr
      obtain ⟨j2, hj2, hrj, hget2⟩ := assignRanks_some allowed_states 0 st r hr
      have hjr : j2 = r := by omega
      subst hjr
      apply List.mem_iff_get.mpr
      have hlen : j2 - (last + 1) <
          ((allowed_states.drop (last + 1)).take (curr - (last + 1))).length := by
        rw [List.length_take, List.length_drop, Nat.lt_min]
        exact ⟨by omega, by omega⟩
      refine ⟨⟨j2 - (last + 1), hlen⟩, ?_⟩
      have hidx2 : last + 1 + (j2 - (last + 1)) < allowed_states.length := by omega
      rw [get_drop_take allowed_states (last + 1) (curr - (last + 1))
        (j2 - (last + 1)) hlen hidx2]
      have hfin : (⟨last + 1 + (j2 - (last + 1)), hidx2⟩ :
          Fin allowed_states.length) = ⟨j2, hj2⟩ := by
        apply Fin.ext
        show last + 1 + (j2 - (last + 1)) = j2
        omega
      rw [hfin]
      exact hget2
  · by_cases hcb : last + 1 ≤ curr
    · have hcl : curr ≤ allowed_states.length := by omega
      have hlenM := length_drop_take allowed_states (last + 1) curr hcl
      apply List.ext_getElem
      · simp only [List.length_map, List.length_range', hlenM]
      · intro n h1 h2
        have hn : n < curr - (last + 1) := by
          rw [List.length_map, hlenM] at h1
          exact h1
        have hidx : last + 1 + n < allowed_states.length := by omega
        simp only [List.getElem_map, List.getElem_take, List.getElem_drop,
          List.getElem_range']
        have har := assignRanks_get allowed_states hnd 0 (last + 1 + n) hidx
        rw [List.get_eq_getElem] at har
        exact (congrFun hmap _).trans (har.trans (congrArg some (by omega)))
    · have hz : curr - (last + 1) = 0 := by omega
      simp [hz]

/-- Witness for C5 at the concrete Scenario 2 input (`NEW` then `DONE`). -/
theorem c5_witness :
    (mkRegression "abc" (some "NEW") (mkEv 2 "DONE" none) ∈
        auditWalk "abc" ord3.1 ord3.2 false (some 0) (some "NEW")
          [mkEv 2 "DONE" none] ↔ 2 < 0) ∧
    (mkSkipped "abc" ((ord3.2.drop (0 + 1)).take (2 - (0 + 1)))
        (mkEv 2 "DONE" none) ∈
        auditWalk "abc" ord3.1 ord3.2 false (some 0) (some "NEW")
          [mkEv 2 "DONE" none] ↔ 0 + 1 < 2) ∧
    ¬((∃ i ∈ auditWalk "abc" ord3.1 ord3.2 false (some 0) (some "NEW")
          [mkEv 2 "DONE" none], i.type = "regression") ∧
      (∃ i ∈ auditWalk "abc" ord3.1 ord3.2 false (some 0) (some "NEW")
          [mkEv 2 "DONE" none], i.type = "skipped_state")) ∧
    (∀ st, st ∈ (ord3.2.drop (0 + 1)).take (2 - (0 + 1)) ↔
      ∃ r, ord3.1 st = some r ∧ 0 < r ∧ r < 2) ∧
    ((ord3.2.drop (0 + 1)).take (2 - (0 + 1))).map ord3.1 =
      (List.range' (0 + 1) (2 - (0 + 1))).map some :=
  c5_regression_skip_dichotomy "NEW>RUNNING>DONE" "abc" ord3.1 ord3.2 false
    (mkEv 2 "DONE" none) 0 "NEW" 2 rfl (by decide) (by decide) (by decide)

/-- Lookup in a concatenation: the left dict wins. -/
theorem findEvents_append (g1 g2 : EventsById) (v : String) :
    findEvents (g1 ++ g2) v =
      match findEvents g1 v with
      | some l => some l
      | none => findEvents g2 v := by
  induction g1 with
  | nil => simp [findEvents]
  | cons p t ih =>
    obtain ⟨k, l⟩ := p
    by_cases h : k = v
    · simp [findEvents, h]
    · simp [findEvents, h, ih]

/-- The list a `defaultdict` subscript hands out. -/
theorem dGet_fst (g : EventsById) (v : String) :
    (dGet g v).1 = (findEvents g v).getD [] := by
  unfold dGet
  cases h : findEvents g v <;> simp

/-- After a `defaultdict` subscript the key is present with its old value
(or `[]`). -/
theorem findEvents_dGet_self (g : EventsById) (v : String) :
    findEvents (dGet g v).2 v = some ((findEvents g v).getD []) := by
  unfold dGet
  cases h : findEvents g v with
  | some l => simp [h]
  | none => simp [findEvents_append, h, findEvents]

/-- A `defaultdict` subscript leaves every other key alone. -/
theorem findEvents_dGet_other (g : EventsById) (v w : String) (h : v ≠ w) :
    findEvents (dGet g v).2 w = findEvents g w := by
  unfold dGet
  cases hf : findEvents g v with
  | some l => simp
  | none =>
    rw [findEvents_append]
    cases hw : findEvents g w <;> simp [findEvents, h]

/-- `events_by_id[v].append(ev)` appends to the stored list. -/
theorem findEvents_dAppend_self (g : EventsById) (v : String) (ev : LogEvent) :
    findEvents (dAppend g v ev) v = some ((findEvents g v).getD [] ++ [ev]) := by
  induction g with
  | nil => simp [dAppend, findEvents]
  | cons p t ih =>
    obtain ⟨k, l⟩ := p
    by_cases h : k = v
    · simp [dAppend, findEvents, h]
    · simp [dAppend, findEvents, h, ih]

/-- `events_by_id[v].append(ev)` leaves every other key alone. -/
theorem findEvents_dAppend_other (g : EventsById) (v w : String) (ev : LogEvent)
    (h : v ≠ w) :
    findEvents (dAppend g v ev) w = findEvents g w := by
  have hvw : ¬ (v = w) := h
  have hwv : ¬ (w = v) := fun q => h q.symm
  induction g with
  | nil => simp [dAppend, findEvents, hvw]
  | cons p t ih =>
    obtain ⟨k, l⟩ := p
    by_cases hk : k = v
    · simp [dAppend, findEvents, hk, hvw]
    · by_cases hw : k = w
      · simp [dAppend, findEvents, hk, hw, hwv]
      · simp [dAppend, findEvents, hk, hw, ih]

/-- A `defaultdict` subscript grows the key count only for a missing key. -/
theorem dGet_snd_length (g : EventsById) (v : String) :
    (dGet g v).2.length =
      if (findEvents g v).isSome then g.length else g.length + 1 := by
  unfold dGet
  cases h : findEvents g v <;> simp

/-- Appending grows the key count only for a missing key. -/
theorem dAppend_length (g : EventsById) (v : String) (ev : LogEvent) :
    (dAppend g v ev).length =
      if (findEvents g v).isSome then g.length else g.length + 1 := by
  induction g with
  | nil => simp [dAppend, findEvents]
  | cons p t ih =>
    obtain ⟨k, l⟩ := p
    by_cases h : k = v
    · simp [dAppend, findEvents, h]
    · simp [dAppend, findEvents, h, ih]
      cases hf : findEvents t v <;> simp

/-- The `max_events_per_id` step leaves every other ID alone. -/
theorem ingestRecordEvCap_find_other (max_events_per_id : Option Nat)
    (g : EventsById) (r : LogEvent) (v : String) (h : r.id_value ≠ v) :
    findEvents (ingestRecordEvCap max_events_per_id g r) v = findEvents g v := by
  cases max_events_per_id with
  | none => exact findEvents_dAppend_other g r.id_value v r h
  | some c =>
    show findEvents (if c ≤ (dGet g r.id_value).1.length then (dGet g r.id_value).2
      else dAppend (dGet g r.id_value).2 r.id_value r) v = findEvents g v
    by_cases hc : c ≤ (dGet g r.id_value).1.length
    · rw [if_pos hc]
      exact findEvents_dGet_other g r.id_value v h
    · rw [if_neg hc, findEvents_dAppend_other _ _ _ _ h]
      exact findEvents_dGet_other g r.id_value v h

/-- The full ingestion step leaves every other ID alone. -/
theorem ingestRecord_find_other (max_ids max_events_per_id : Option Nat)
    (g : EventsById) (r : LogEvent) (v : String) (h : r.id_value ≠ v) :
    findEvents (ingestRecord max_ids max_events_per_id g r) v = findEvents g v := by
  cases max_ids with
  | none => exact ingestRecordEvCap_find_other max_events_per_id g r v h
  | some k =>
    show findEvents (if findEvents g r.id_value = none ∧ k ≤ g.length then g
      else ingestRecordEvCap max_events_per_id g r) v = findEvents g v
    by_cases hc : findEvents g r.id_value = none ∧ k ≤ g.length
    · rw [if_pos hc]
    · rw [if_neg hc]
      exact ingestRecordEvCap_find_other max_events_per_id g r v h

/-- With only the per-ID cap configured, the events stored for an ID after
the reader loop are its first records in encounter order, truncated to the
cap, appended to whatever the accumulator already held (itself within the
cap). -/
theorem ingestCore_find_evCap (cap : Nat) :
    ∀ (recs : List LogEvent) (g : EventsById) (v : String),
      (∀ l, findEvents g v = some l → l.length ≤ cap) →
      findEvents (ingestCore none (some cap) g recs) v =
        match findEvents g v with
        | none => if keptFor recs v = [] then none
                  else some ((keptFor recs v).take cap)
        | some l => some (l ++ (keptFor recs v).take (cap - l.length)) := by
  intro recs
  induction recs with
  | nil =>
    intro g v hg
    cases h : findEvents g v with
    | none => simp [ingestCore, keptFor, h]
    | some l => simp [ingestCore, keptFor, h]
  | cons r rs ih =>
    intro g v hg
    show findEvents (ingestCore none (some cap)
      (ingestRecord none (some cap) g r) rs) v = _
    by_cases hv : r.id_value = v
    · have hkept : keptFor (r :: rs) v = r :: keptFor rs v := by
        simp [keptFor, hv]
      have hstep : ingestRecord none (some cap) g r =
          if cap ≤ (dGet g r.id_value).1.length then (dGet g r.id_value).2
          else dAppend (dGet g r.id_value).2 r.id_value r := rfl
      have hfst : (dGet g r.id_value).1 = (findEvents g v).getD [] := by
        rw [dGet_fst, hv]
      have hsnd : findEvents (dGet g r.id_value).2 v =
          some ((findEvents g v).getD []) := by
        rw [hv]
        exact findEvents_dGet_self g v
      by_cases hc : cap ≤ (dGet g r.id_value).1.length
      · rw [hstep, if_pos hc]
        have hl0 : ((findEvents g v).getD []).length ≤ cap := by
          cases hgv : findEvents g v with
          | none => simp
          | some l => simpa using hg l hgv
        have hg2 : ∀ l, findEvents (dGet g r.id_value).2 v = some l →
            l.length ≤ cap := by
          rw [hsnd]
          intro l hl
          have he : (findEvents g v).getD [] = l := by injection hl
          rw [← he]
          exact hl0
        rw [ih _ v hg2, hsnd, hkept]
        rw [hfst] at hc
        cases hgv : findEvents g v with
        | none =>
          have hcap0 : cap = 0 := by
            rw [hgv] at hc
            simpa using hc
          simp [hgv, hcap0]
        | some l =>
          have hlc : l.length = cap := by
            have h1 := hg l hgv
            rw [hgv] at hc
            simp at hc
            omega
          simp [hgv, hlc]
      · rw [hstep, if_neg hc]
        rw [hfst] at hc
        have hlen : ((findEvents g v).getD []).length < cap := by omega
        have hfindA : findEvents (dAppend (dGet g r.id_value).2 r.id_value r) v =
            some ((findEvents g v).getD [] ++ [r]) := by
          rw [hv, findEvents_dAppend_self, findEvents_dGet_self]
          simp
        have hg2 : ∀ l, findEvents (dAppend (dGet g r.id_value).2 r.id_value r) v =
            some l → l.length ≤ cap := by
          rw [hfindA]
          intro l hl
          have he : (findEvents g v).getD [] ++ [r] = l := by injection hl
          rw [← he]
          simp
          omega
        rw [ih _ v hg2, hfindA, hkept]
        cases hgv : findEvents g v with
        | none =>
          rw [hgv] at hlen
          simp only [Option.getD_none] at hlen ⊢
          obtain ⟨c2, rfl⟩ : ∃ c2, cap = c2 + 1 := ⟨cap - 1, by omega⟩
          simp [List.take_succ_cons]
        | some l =>
          rw [hgv] at hlen
          simp only [Option.getD_some] at hlen
          simp only [hgv, Option.getD_some]
          have hc2 : cap - l.length = (cap - l.length - 1) + 1 := by omega
          have hc3 : cap - (l ++ [r]).length = cap - l.length - 1 := by
            simp
            omega
          rw [hc2, hc3, List.take_succ_cons]
          simp
    · have hkept : keptFor (r :: rs) v = keptFor rs v := by
        simp [keptFor, hv]
      have hstep : findEvents (ingestRecord none (some cap) g r) v =
          findEvents g v :=
        ingestRecord_find_other none (some cap) g r v hv
      have hg2 : ∀ l, findEvents (ingestRecord none (some cap) g r) v = some l →
          l.length ≤ cap := by
        rw [hstep]
        exact hg
      rw [ih _ v hg2, hstep, hkept]

/-- Specialization of `ingestCore_find_evCap` to the empty starting group. -/
theorem ingestCore_find_empty_start (recs : List LogEvent) (v : String)
    (cap : Nat) :
    findEvents (ingestCore none (some cap) [] recs) v =
      if keptFor recs v = [] then none
      else some ((keptFor recs v).take cap) := by
  have h := ingestCore_find_evCap cap recs [] v
    (by intro l hl; simp [findEvents] at hl)
  simpa [findEvents] using h

/-- C7: with the per-ID cap configured, ingestion retains for each
correlation ID exactly the first `cap` candidate records for that ID in
encounter order (for the shared reader core and for both readers), and the
spec Scenario 6 instance: cap `2` over `NEW, RUNNING, DONE` keeps
`NEW, RUNNING`. -/
theorem c7_per_id_cap_keeps_first_records :
    (∀ (recs : List LogEvent) (v : String) (cap : Nat),
      findEvents (ingestCore none (some cap) [] recs) v =
        if keptFor recs v = [] then none
        else some ((keptFor recs v).take cap)) ∧
    (∀ (pt : Option String → Option PyDateTime) (src : String)
      (lines : List JsonLine) (v : String) (cap : Nat),
      findEvents (read_json_logs pt src none (some cap) lines) v =
        if keptFor (jsonDecode pt src lines) v = [] then none
        else some ((keptFor (jsonDecode pt src lines) v).take cap)) ∧
    (∀ (exId exSt exTs : String → Option String)
      (pt : String → Option PyDateTime) (src : String) (lines : List String)
      (v : String) (cap : Nat),
      findEvents (read_text_logs exId exSt exTs pt src none (some cap) lines) v =
        if keptFor (textDecode exId exSt exTs pt src lines) v = [] then none
        else some ((keptFor (textDecode exId exSt exTs pt src lines) v).take cap)) ∧
    findEvents (ingestCore none (some 2) []
        [mkEv 1 "NEW" none, mkEv 2 "RUNNING" none, mkEv 3 "DONE" none]) "abc" =
      some [mkEv 1 "NEW" none, mkEv 2 "RUNNING" none] :=
  ⟨fun recs v cap => ingestCore_find_empty_start recs v cap,
   fun pt src lines v cap =>
     ingestCore_find_empty_start (jsonDecode pt src lines) v cap,
   fun exId exSt exTs pt src lines v cap =>
     ingestCore_find_empty_start (textDecode exId exSt exTs pt src lines) v cap,
   by decide⟩

/-- The key count after the `max_events_per_id` step: it grows only when the
record carries a fresh ID. -/
theorem ingestRecordEvCap_length (max_events_per_id : Option Nat)
    (g : EventsById) (r : LogEvent) :
    (ingestRecordEvCap max_events_per_id g r).length =
      if (findEvents g r.id_value).isSome then g.length else g.length + 1 := by
  cases max_events_per_id with
  | none => exact dAppend_length g r.id_value r
  | some c =>
    show (if c ≤ (dGet g r.id_value).1.length then (dGet g r.id_value).2
      else dAppend (dGet g r.id_value).2 r.id_value r).length = _
    by_cases hcle : c ≤ (dGet g r.id_value).1.length
    · rw [if_pos hcle, dGet_snd_length]
    · rw [if_neg hcle, dAppend_length, findEvents_dGet_self]
      simp [dGet_snd_length]

/-- One ingestion step cannot push the key count above the `max_ids` cap. -/
theorem ingestRecord_length_le (k : Nat) (max_events_per_id : Option Nat)
    (g : EventsById) (r : LogEvent) (h : g.length ≤ k) :
    (ingestRecord (some k) max_events_per_id g r).length ≤ k := by
  show (if findEvents g r.id_value = none ∧ k ≤ g.length then g
    else ingestRecordEvCap max_events_per_id g r).length ≤ k
  by_cases hc : findEvents g r.id_value = none ∧ k ≤ g.length
  · rw [if_pos hc]
    exact h
  · rw [if_neg hc, ingestRecordEvCap_length]
    cases hf : findEvents g r.id_value with
    | some l => simpa using h
    | none =>
      have hlt : g.length < k := by
        by_contra hx
        exact hc ⟨hf, by omega⟩
      simp [hf]
      omega

/-- The reader loop keeps the key count within the `max_ids` cap. -/
theorem ingestCore_length_le (k : Nat) (max_events_per_id : Option Nat) :
    ∀ (recs : List LogEvent) (g : EventsById), g.length ≤ k →
      (ingestCore (some k) max_events_per_id g recs).length ≤ k := by
  intro recs
  induction recs with
  | nil => intro g h; exact h
  | cons r rs ih =>
    intro g h
    exact ih _ (ingestRecord_length_le k max_events_per_id g r h)

/-- C8: once the number of distinct IDs reaches the `max_ids` cap, a record
with a fresh ID is dropped (the group is unchanged) while a record with an
already-known ID is handled exactly as without the cap; consequently the key
count of the resulting group never exceeds the cap (shared core and both
readers). -/
theorem c8_max_ids_cap_bounds_breadth :
    (∀ (g : EventsById) (r : LogEvent) (max_events_per_id : Option Nat)
      (k : Nat), k ≤ g.length → findEvents g r.id_value = none →
      ingestRecord (some k) max_events_per_id g r = g) ∧
    (∀ (g : EventsById) (r : LogEvent) (max_events_per_id : Option Nat)
      (k : Nat) (l : List LogEvent), findEvents g r.id_value = some l →
      ingestRecord (some k) max_events_per_id g r =
        ingestRecord none max_events_per_id g r) ∧
    (∀ (recs : List LogEvent) (max_events_per_id : Option Nat) (k : Nat),
      (ingestCore (some k) max_events_per_id [] recs).length ≤ k) ∧
    (∀ (pt : Option String → Option PyDateTime) (src : String)
      (lines : List JsonLine) (max_events_per_id : Option Nat) (k : Nat),
      (read_json_logs pt src (some k) max_events_per_id lines).length ≤ k) ∧
    (∀ (exId exSt exTs : String → Option String)
      (pt : String → Option PyDateTime) (src : String) (lines : List String)
      (max_events_per_id : Option Nat) (k : Nat),
      (read_text_logs exId exSt exTs pt src (some k) max_events_per_id
        lines).length ≤ k) := by
  refine ⟨?_, ?_, ?_, ?_, ?_⟩
  · intro g r maxEv k h1 h2
    show (if findEvents g r.id_value = none ∧ k ≤ g.length then g
      else ingestRecordEvCap maxEv g r) = g
    rw [if_pos ⟨h2, h1⟩]
  · intro g r maxEv k l h
    show (if findEvents g r.id_value = none ∧ k ≤ g.length then g
      else ingestRecordEvCap maxEv g r) = ingestRecordEvCap maxEv g r
    rw [if_neg (by simp [h])]
  · intro recs maxEv k
    exact ingestCore_length_le k maxEv recs [] (by simp)
  · intro pt src lines maxEv k
    exact ingestCore_length_le k maxEv (jsonDecode pt src lines) [] (by simp)
  · intro exId exSt exTs pt src lines maxEv k
    exact ingestCore_length_le k maxEv (textDecode exId exSt exTs pt src lines)
      [] (by simp)

/-- Witness for C8 at concrete inputs. -/
theorem c8_witness :
    ingestRecord (some 0) none [] (mkEv 1 "NEW" none) = [] ∧
    ingestRecord (some 1) none [("abc", [mkEv 1 "NEW" none])]
        (mkEv 2 "RUNNING" none) =
      ingestRecord none none [("abc", [mkEv 1 "NEW" none])]
        (mkEv 2 "RUNNING" none) ∧
    (ingestCore (some 1) none []
      [mkEv 1 "NEW" none, mkEv 2 "RUNNING" none]).length ≤ 1 :=
  ⟨c8_max_ids_cap_bounds_breadth.1 [] (mkEv 1 "NEW" none) none 0
     (by decide) (by decide),
   c8_max_ids_cap_bounds_breadth.2.1 [("abc", [mkEv 1 "NEW" none])]
     (mkEv 2 "RUNNING" none) none 1 [mkEv 1 "NEW" none] (by decide),
   c8_max_ids_cap_bounds_breadth.2.2.1 [mkEv 1 "NEW" none, mkEv 2 "RUNNING" none]
     none 1⟩

/-- A second correlation ID for the concrete `max_ids` interaction check. -/
def evXyz : LogEvent :=
  { raw_line := "", source_file := "app.log", line_no := 2,
    timestamp := none, id_value := "xyz", state := "NEW" }

/-- With a per-ID cap of at least one, the `max_events_per_id` step preserves
the invariant that every stored event list is non-empty. -/
theorem ingestRecordEvCap_keeps_nonempty (cap : Nat) (g : EventsById)
    (r : LogEvent) (hcap : 1 ≤ cap)
    (hg : ∀ v l, findEvents g v = some l → l ≠ []) :
    ∀ v l, findEvents (ingestRecordEvCap (some cap) g r) v = some l → l ≠ [] := by
  intro v l hl
  by_cases hv : r.id_value = v
  · by_cases hc : cap ≤ (dGet g r.id_value).1.length
    · have hstep : ingestRecordEvCap (some cap) g r = (dGet g r.id_value).2 := by
        show (if cap ≤ (dGet g r.id_value).1.length then (dGet g r.id_value).2
          else dAppend (dGet g r.id_value).2 r.id_value r) = _
        rw [if_pos hc]
      rw [hstep, hv, findEvents_dGet_self] at hl
      have he : (findEvents g v).getD [] = l := by injection hl
      rw [dGet_fst, hv] at hc
      intro hnil
      rw [he, hnil] at hc
      simp at hc
      omega
    · have hstep : ingestRecordEvCap (some cap) g r =
          dAppend (dGet g r.id_value).2 r.id_value r := by
        show (if cap ≤ (dGet g r.id_value).1.length then (dGet g r.id_value).2
          else dAppend (dGet g r.id_value).2 r.id_value r) = _
        rw [if_neg hc]
      rw [hstep, hv, findEvents_dAppend_self] at hl
      have he : (findEvents (dGet g v).2 v).getD [] ++ [r] = l := by injection hl
      intro hnil
      rw [hnil] at he
      simp at he
  · rw [ingestRecordEvCap_find_other (some cap) g r v hv] at hl
    exact hg v l hl

/-- With a per-ID cap of at least one, the full ingestion step preserves the
invariant that every stored event list is non-empty. -/
theorem ingestRecord_keeps_nonempty (max_ids : Option Nat) (cap : Nat)
    (g : EventsById) (r : LogEvent) (hcap : 1 ≤ cap)
    (hg : ∀ v l, findEvents g v = some l → l ≠ []) :
    ∀ v l, findEvents (ingestRecord max_ids (some cap) g r) v = some l →
      l ≠ [] := by
  cases max_ids with
  | none => exact ingestRecordEvCap_keeps_nonempty cap g r hcap hg
  | some k =>
    intro v l
    show findEvents (if findEvents g r.id_value = none ∧ k ≤ g.length then g
      else ingestRecordEvCap (some cap) g r) v = some l → l ≠ []
    by_cases hcnd : findEvents g r.id_value = none ∧ k ≤ g.length
    · rw [if_pos hcnd]
      exact hg v l
    · rw [if_neg hcnd]
      exact ingestRecordEvCap_keeps_nonempty cap g r hcap hg v l

/-- With a per-ID cap of at least one, the reader loop preserves the
invariant that every stored event list is non-empty. -/
theorem ingestCore_keeps_nonempty (max_ids : Option Nat) (cap : Nat)
    (hcap : 1 ≤ cap) :
    ∀ (recs : List LogEvent) (g : EventsById),
      (∀ v l, findEvents g v = some l → l ≠ []) →
      ∀ v l, findEvents (ingestCore max_ids (some cap) g recs) v = some l →
        l ≠ [] := by
  intro recs
  induction recs with
  | nil => intro g hg; exact hg
  | cons r rs ih =>
    intro g hg
    exact ih _ (ingestRecord_keeps_nonempty max_ids cap g r hcap hg)

/-- C10: with `max_events_per_id = 0` the cap check still subscripts the
`defaultdict`, so every usable record registers its ID with an empty event
list; such eventless IDs fill the `max_ids` cap and are counted by the
reported totals; and with any cap of at least one, every ID present in the
resulting group carries a non-empty event list. -/
theorem c10_zero_cap_registers_ids :
    (∀ (g : EventsById) (r : LogEvent),
      ingestRecord none (some 0) g r = (dGet g r.id_value).2) ∧
    (∀ (recs : List LogEvent) (v : String),
      findEvents (ingestCore none (some 0) [] recs) v =
        if keptFor recs v = [] then none else some []) ∧
    ingestCore (some 1) (some 0) [] [mkEv 1 "NEW" none, evXyz] =
      [("abc", [])] ∧
    summaryTotalIds (ingestCore (some 1) (some 0) []
      [mkEv 1 "NEW" none, evXyz]) = 1 ∧
    summaryTotalEvents (ingestCore (some 1) (some 0) []
      [mkEv 1 "NEW" none, evXyz]) = 0 ∧
    (∀ (max_ids : Option Nat) (cap : Nat) (recs : List LogEvent) (v : String)
      (l : List LogEvent), 1 ≤ cap →
      findEvents (ingestCore max_ids (some cap) [] recs) v = some l →
      l ≠ []) := by
  refine ⟨?_, ?_, by decide, by decide, by decide, ?_⟩
  · intro g r
    show (if 0 ≤ (dGet g r.id_value).1.length then (dGet g r.id_value).2
      else dAppend (dGet g r.id_value).2 r.id_value r) = (dGet g r.id_value).2
    rw [if_pos (Nat.zero_le _)]
  · intro recs v
    have h := ingestCore_find_empty_start recs v 0
    simpa using h
  · intro max_ids cap recs v l hcap hl
    exact ingestCore_keeps_nonempty max_ids cap hcap recs []
      (by intro w l2 hw; simp [findEvents] at hw) v l hl

/-- Witness for C10 at concrete inputs. -/
theorem c10_witness :
    ingestRecord none (some 0) [] (mkEv 1 "NEW" none) =
      (dGet [] (mkEv 1 "NEW" none).id_value).2 ∧
    ([mkEv 1 "NEW" none] : List LogEvent) ≠ [] :=
  ⟨c10_zero_cap_registers_ids.1 [] (mkEv 1 "NEW" none),
   c10_zero_cap_registers_ids.2.2.2.2.2 none 1 [mkEv 1 "NEW" none] "abc"
     [mkEv 1 "NEW" none] (by decide) (by decide)⟩
